import Mathlib

/-!
Verification model of the core-worker direct task transport and in-memory
object store (`direct_task_transport.cc`): the `CoreWorkerMemoryStore` with
its `GetRequest` records, the `CoreWorkerDirectTaskSubmitter`, and the
dependency-inlining step `DoInlineObjectValue`.

The C++ state is embedded shallowly: hash maps become association lists,
shared `GetRequest` pointers become an arena of records addressed by a
natural-number id, and the calls a function makes to injected collaborators
(async callbacks, `store_in_plasma`, the lease client, the RPC stub) are
recorded as an explicit effect trace.  Process aborts (`RAY_CHECK` failures)
are modelled by `Option`: a `none` result is an abort.  `num_objects` is
modelled as `Nat`; every call site considered passes a nonnegative count.
-/

namespace RayCore

/-- An object identifier.  A designated bit of the real 20-byte id selects the
direct-call versus raylet-transport subspace; we keep the rest of the id
abstract as a natural number and the transport bit explicit. -/
structure ObjectID where
  uid : Nat
  direct : Bool
deriving DecidableEq, Repr

/-- `ObjectID::IsDirectCallType`. -/
def ObjectID.IsDirectCallType (o : ObjectID) : Bool := o.direct

/-- `ObjectID::WithTransportType(TaskTransportType::RAYLET)`: flip the
transport bit to the raylet subspace, preserving the rest of the id. -/
def ObjectID.withRayletTransport (o : ObjectID) : ObjectID :=
  { o with direct := false }

/-- The error enumeration consumed at the boundary (values from
`gcs.proto`). -/
inductive ErrorType where
  | WORKER_DIED
  | ACTOR_DIED
  | OBJECT_UNRECONSTRUCTABLE
  | TASK_EXECUTION_EXCEPTION
  | OBJECT_IN_PLASMA
deriving DecidableEq, Repr

/-- The wire value of an `ErrorType` (`gcs.proto` tag numbers). -/
def ErrorType.code : ErrorType → Nat
  | .WORKER_DIED => 0
  | .ACTOR_DIED => 1
  | .OBJECT_UNRECONSTRUCTABLE => 2
  | .TASK_EXECUTION_EXCEPTION => 3
  | .OBJECT_IN_PLASMA => 4

/-- The metadata bytes of a synthetic error object: the encoded tag. -/
def errorMetadata (e : ErrorType) : List Nat := [e.code]

/-- `RayObject`: an immutable pair of optional data and metadata buffers
(bytes are modelled as `List Nat`). -/
structure RayObject where
  data : Option (List Nat)
  metadata : Option (List Nat)
deriving DecidableEq, Repr

instance : Inhabited RayObject := ⟨⟨none, none⟩⟩

/-- `RayObject::HasData`. -/
def RayObject.HasData (o : RayObject) : Bool := o.data.isSome

/-- `RayObject::HasMetadata`. -/
def RayObject.HasMetadata (o : RayObject) : Bool := o.metadata.isSome

/-- `RayObject::IsInPlasmaError`: the metadata is the encoded
`OBJECT_IN_PLASMA` error tag. -/
def RayObject.IsInPlasmaError (o : RayObject) : Bool :=
  decide (o.metadata = some (errorMetadata .OBJECT_IN_PLASMA))

/-- The synthetic failure object written for a dead worker:
`RayObject(error_metadata = WORKER_DIED)`. -/
def workerDiedObject : RayObject :=
  { data := none, metadata := some (errorMetadata .WORKER_DIED) }

/-- The status codes the modelled operations return. -/
inductive Status where
  | OK
  | ObjectExists
  | TimedOut
deriving DecidableEq, Repr

/-- A worker address `(host, port)`; the host is abstracted to a number. -/
abbrev WorkerAddress := Nat × Nat

/-- One call made to an injected collaborator, recorded in program order. -/
inductive Effect where
  | storePlasma (obj : RayObject) (promotedId : ObjectID)
  | asyncCb (cb : Nat) (obj : RayObject)
  | returnWorker (port : Nat)
  | requestLease (taskId : Nat)
  | pushTask (addr : WorkerAddress) (taskId : Nat)
  | putCall (id : ObjectID) (obj : RayObject)
deriving DecidableEq, Repr

/-! ### Association-list maps

The `absl::flat_hash_map`s are embedded as association lists with
first-match lookup; keys stay unique because insertion always checks
presence first. -/

/-- First-match lookup. -/
def alookup [DecidableEq κ] : List (κ × α) → κ → Option α
  | [], _ => none
  | (k, v) :: rest, k' => if k' = k then some v else alookup rest k'

/-- Remove a key (all bindings of it). -/
def aerase [DecidableEq κ] : List (κ × α) → κ → List (κ × α)
  | [], _ => []
  | (k0, w0) :: rest, k =>
    if k0 = k then aerase rest k else (k0, w0) :: aerase rest k

/-- Replace the value bound to a present key; no-op when absent. -/
def aupdate [DecidableEq κ] : List (κ × α) → κ → α → List (κ × α)
  | [], _, _ => []
  | (k0, w0) :: rest, k, v =>
    if k0 = k then (k, v) :: aupdate rest k v else (k0, w0) :: aupdate rest k v

/-- `emplace`: insert only when the key is absent. -/
def emplace [DecidableEq κ] (l : List (κ × α)) (k : κ) (v : α) : List (κ × α) :=
  match alookup l k with
  | some _ => l
  | none => (k, v) :: l

/-- Append an element to the list bound to a key, default-constructing the
entry when absent (`map[key].push_back(x)`). -/
def appendAt [DecidableEq κ] (l : List (κ × List α)) (k : κ) (x : α) : List (κ × List α) :=
  match alookup l k with
  | none => (k, [x]) :: l
  | some xs => aupdate l k (xs ++ [x])

/-- Erase one occurrence of an element from the list bound to a key, dropping
the key when its list becomes empty (the deregistration pattern of
`CoreWorkerMemoryStore::Get`). -/
def removeAt [DecidableEq κ] [DecidableEq α] (l : List (κ × List α)) (k : κ) (x : α) :
    List (κ × List α) :=
  match alookup l k with
  | none => l
  | some xs =>
    let xs' := xs.erase x
    if xs' = [] then aerase l k else aupdate l k xs'

/-- Insert into a set represented as a duplicate-free list
(`flat_hash_set::insert`). -/
def insertUniq [DecidableEq α] (l : List α) (x : α) : List α :=
  if x ∈ l then l else x :: l

/-! ### `GetRequest`

The coordination record a blocked `Get` shares with the store.  The record
itself is pure data; the arena of live records lives in `StoreState`. -/

/-- A `GetRequest`: the awaited id set, the objects delivered so far, the
required count, the `remove_after_get` flag, and the ready bit. -/
structure GetRequest where
  objectIds : List ObjectID
  objects : List (ObjectID × RayObject)
  numObjects : Nat
  removeAfterGet : Bool
  isReady : Bool
deriving DecidableEq, Repr

instance : Inhabited GetRequest := ⟨⟨[], [], 0, false, false⟩⟩

/-- `GetRequest::Set`: drop the delivery once ready; otherwise emplace the
object and flip `is_ready_` when the required count is reached. -/
def GetRequest.set (req : GetRequest) (id : ObjectID) (obj : RayObject) : GetRequest :=
  if req.isReady then req
  else
    let objs := emplace req.objects id obj
    { req with objects := objs, isReady := objs.length == req.numObjects }

/-- `GetRequest::Get`: look up a delivered object. -/
def GetRequest.getObj (req : GetRequest) (id : ObjectID) : Option RayObject :=
  alookup req.objects id

/-! ### `CoreWorkerMemoryStore` -/

/-- The store state: `objects_`, `object_async_get_requests_`,
`object_get_requests_` (holding arena ids of the registered `GetRequest`s),
the arena of live requests, `promoted_to_plasma_`, whether the
`store_in_plasma_` callback was injected, and the next fresh arena id.
Async callbacks are identified by numbers; invoking one is an effect. -/
structure StoreState where
  objects : List (ObjectID × RayObject)
  asyncWaiters : List (ObjectID × List Nat)
  syncWaiters : List (ObjectID × List Nat)
  requests : List (Nat × GetRequest)
  promoted : List ObjectID
  hasPlasma : Bool
  nextReq : Nat
deriving DecidableEq, Repr

/-- The store as constructed, with or without a `store_in_plasma` callback. -/
def StoreState.init (hasPlasma : Bool) : StoreState :=
  { objects := [], asyncWaiters := [], syncWaiters := [], requests := [],
    promoted := [], hasPlasma := hasPlasma, nextReq := 0 }

/-- The loop of `Put` over `object_get_requests_[id]`: deliver the object to
each registered request and clear `should_add_entry` when any of them wants
removal after get. -/
def putSetFold (id : ObjectID) (entry : RayObject) :
    List Nat → List (Nat × GetRequest) → Bool → List (Nat × GetRequest) × Bool
  | [], pool, sa => (pool, sa)
  | rid :: rest, pool, sa =>
    match alookup pool rid with
    | none => putSetFold id entry rest pool sa
    | some req =>
      putSetFold id entry rest (aupdate pool rid (req.set id entry))
        (sa && !req.removeAfterGet)

/-- `CoreWorkerMemoryStore::Put`.  `none` is a `RAY_CHECK` abort (non
direct-call id, or a promoted id with no plasma callback).  On success the
returned trace lists the `store_in_plasma` call (made under the lock) and
then the drained async callbacks (invoked after the lock is released). -/
def put (s : StoreState) (id : ObjectID) (obj : RayObject) :
    Option (Status × StoreState × List Effect) :=
  if id.IsDirectCallType = false then none
  else
    match alookup s.objects id with
    | some _ => some (.ObjectExists, s, [])
    | none =>
      if id ∈ s.promoted ∧ s.hasPlasma = false then none
      else
        let entry : RayObject := ⟨obj.data, obj.metadata⟩
        let cbs := (alookup s.asyncWaiters id).getD []
        let plasmaEffs :=
          if id ∈ s.promoted then [Effect.storePlasma obj id.withRayletTransport] else []
        let rids := (alookup s.syncWaiters id).getD []
        let fold := putSetFold id entry rids s.requests true
        some (.OK,
          { s with
            objects := if fold.2 then emplace s.objects id entry else s.objects,
            asyncWaiters := aerase s.asyncWaiters id,
            promoted := s.promoted.erase id,
            requests := fold.1 },
          plasmaEffs ++ cbs.map (fun cb => Effect.asyncCb cb entry))

/-- `CoreWorkerMemoryStore::GetAsync`: run the callback at once when the
object is present, otherwise register it. -/
def getAsync (s : StoreState) (id : ObjectID) (cb : Nat) : StoreState × List Effect :=
  match alookup s.objects id with
  | some o => (s, [Effect.asyncCb cb o])
  | none => ({ s with asyncWaiters := appendAt s.asyncWaiters id cb }, [])

/-- `CoreWorkerMemoryStore::GetOrPromoteToPlasma`.  `none` is the
`RAY_CHECK` abort on a missing plasma callback. -/
def getOrPromoteToPlasma (s : StoreState) (id : ObjectID) :
    Option (Option RayObject × StoreState) :=
  match alookup s.objects id with
  | some o => if o.IsInPlasmaError then some (none, s) else some (some o, s)
  | none =>
    if s.hasPlasma then some (none, { s with promoted := insertUniq s.promoted id })
    else none

/-- `CoreWorkerMemoryStore::Delete`. -/
def deleteObjects (s : StoreState) (ids : List ObjectID) : StoreState :=
  { s with objects := ids.foldl aerase s.objects }

/-- `CoreWorkerMemoryStore::Contains`. -/
def containsObject (s : StoreState) (id : ObjectID) : Bool :=
  match alookup s.objects id with
  | some o => !o.IsInPlasmaError
  | none => false

/-! ### `CoreWorkerMemoryStore::Get` -/

/-- What the initial scan loop of `Get` produces: the partially filled
results, the found count, the deferred-removal ids and the missed ids (both
kept as occurrence lists; set semantics is applied where the code uses the
sets). -/
structure ScanResult where
  results : List (Option RayObject)
  count : Nat
  toRemove : List ObjectID
  remaining : List ObjectID
deriving DecidableEq, Repr

/-- The initial scan loop of `Get`: walk `ids` while `count < numObjects`,
filling hits into the results, recording hits for deferred removal under
`remove_after_get`, and collecting misses into the remaining set.  Positions
not reached before the loop exits stay absent. -/
def scanGo (objs : List (ObjectID × RayObject)) (ids : List ObjectID)
    (c n : Nat) (removeAfterGet : Bool) : ScanResult :=
  match ids with
  | [] => ⟨[], c, [], []⟩
  | id :: rest =>
    if c < n then
      match alookup objs id with
      | some v =>
        let t := scanGo objs rest (c + 1) n removeAfterGet
        ⟨some v :: t.results, t.count,
          (if removeAfterGet then [id] else []) ++ t.toRemove, t.remaining⟩
      | none =>
        let t := scanGo objs rest c n removeAfterGet
        ⟨none :: t.results, t.count, t.toRemove, id :: t.remaining⟩
    else ⟨List.replicate ids.length none, c, [], []⟩

/-- `size_t` subtraction (two's-complement wraparound), for the
`num_objects - (object_ids.size() - remaining_ids.size())` computation.
Valid for subtrahends below `2 ^ 64`. -/
def sizetSub (a b : Nat) : Nat := (a + 2 ^ 64 - b) % 2 ^ 64

/-- Allocate a fresh `GetRequest` in the arena and register it in
`object_get_requests_` under every remaining id. -/
def registerGetRequest (s : StoreState) (remaining : List ObjectID)
    (required : Nat) (removeAfterGet : Bool) : Nat × StoreState :=
  let rid := s.nextReq
  let req : GetRequest := ⟨remaining, [], required, removeAfterGet, false⟩
  (rid,
    { s with
      requests := (rid, req) :: s.requests,
      syncWaiters := remaining.foldl (fun m id => appendAt m id rid) s.syncWaiters,
      nextReq := rid + 1 })

/-- Deregister a `GetRequest` from `object_get_requests_` (erasing emptied
vectors) and release it from the arena. -/
def deregisterGetRequest (s : StoreState) (rid : Nat) : StoreState :=
  match alookup s.requests rid with
  | none => s
  | some req =>
    { s with
      syncWaiters := req.objectIds.foldl (fun m id => removeAt m id rid) s.syncWaiters,
      requests := aerase s.requests rid }

/-- The under-lock first phase of `Get`: scan, apply the deferred removals,
and either finish (`none` request) or register a `GetRequest` for the
remaining ids.  `none` overall is the `RAY_CHECK` abort of the `GetRequest`
constructor (`num_objects_ <= object_ids_.size()`). -/
def getScanPhase (s : StoreState) (ids : List ObjectID) (numObjects : Nat)
    (removeAfterGet : Bool) : Option (ScanResult × StoreState × Option Nat) :=
  let sc := scanGo s.objects ids 0 numObjects removeAfterGet
  let s1 := { s with objects := sc.toRemove.foldl aerase s.objects }
  if sc.remaining.isEmpty || numObjects ≤ sc.count then some (sc, s1, none)
  else
    let remSet := sc.remaining.dedup
    let required := sizetSub numObjects (ids.length - remSet.length)
    if remSet.length < required then none
    else
      let r := registerGetRequest s1 remSet required removeAfterGet
      some (sc, r.2, some r.1)

/-- The wait-phase population of `Get`: fill every still-absent position
from the request's private map. -/
def populateResults (req : GetRequest) (ids : List ObjectID)
    (results : List (Option RayObject)) : List (Option RayObject) :=
  (results.zip ids).map (fun p =>
    match p.1 with
    | some v => some v
    | none => req.getObj p.2)

/-- The possible outcomes of one `Get` call in this sequential model. -/
inductive GetOutcome where
  | returns (st : Status) (results : List (Option RayObject)) (s : StoreState)
  | blocks
  | aborts
deriving DecidableEq, Repr

/-- `CoreWorkerMemoryStore::Get`.  When the scan cannot be satisfied the
call registers a request and waits; with no concurrent producer in this
sequential model a `-1` timeout blocks forever, and a nonnegative timeout
elapses, populates nothing new, deregisters and reports `TimedOut`.
A timeout below `-1` hits the `RAY_CHECK` in `GetRequest::Wait`. -/
def get (s : StoreState) (ids : List ObjectID) (numObjects : Nat)
    (timeoutMs : Int) (removeAfterGet : Bool) : GetOutcome :=
  match getScanPhase s ids numObjects removeAfterGet with
  | none => .aborts
  | some (sc, s1, none) => .returns .OK sc.results s1
  | some (sc, s1, some rid) =>
    if timeoutMs < -1 then .aborts
    else if timeoutMs = -1 then .blocks
    else
      match alookup s1.requests rid with
      | none => .aborts
      | some req =>
        .returns .TimedOut (populateResults req ids sc.results) (deregisterGetRequest s1 rid)

/-! ### The store as a transition system

Clients drive the store through these events; the two lock regions of a
blocking `Get` are separate events because other threads interleave between
them.  Reachability closes the state space under every event whose
`RAY_CHECK`s pass. -/

/-- One client interaction with the store. -/
inductive StoreEvent where
  | putE (id : ObjectID) (obj : RayObject)
  | getStartE (ids : List ObjectID) (numObjects : Nat) (removeAfterGet : Bool)
  | getFinishE (rid : Nat)
  | getAsyncE (id : ObjectID) (cb : Nat)
  | getOrPromoteE (id : ObjectID)
  | deleteE (ids : List ObjectID)

/-- The state transition of one store event; `none` is an abort. -/
def storeStep (s : StoreState) : StoreEvent → Option StoreState
  | .putE id obj => (put s id obj).map (fun r => r.2.1)
  | .getStartE ids n r => (getScanPhase s ids n r).map (fun r => r.2.1)
  | .getFinishE rid => some (deregisterGetRequest s rid)
  | .getAsyncE id cb => some (getAsync s id cb).1
  | .getOrPromoteE id => (getOrPromoteToPlasma s id).map (fun r => r.2)
  | .deleteE ids => some (deleteObjects s ids)

/-- The store states reachable from a freshly constructed store. -/
inductive StoreReachable : StoreState → Prop
  | init (b : Bool) : StoreReachable (StoreState.init b)
  | step {s s' : StoreState} {e : StoreEvent} :
      StoreReachable s → storeStep s e = some s' → StoreReachable s'

/-- The per-request bound: while a request is not ready and still requires
at least one object, it holds strictly fewer objects than it requires. -/
def reqBound (req : GetRequest) : Prop :=
  req.isReady = false → 0 < req.numObjects → req.objects.length < req.numObjects

/-- The arena-wide bound. -/
def poolBound (pool : List (Nat × GetRequest)) : Prop :=
  ∀ rid req, alookup pool rid = some req → reqBound req

/-! ### Task specifications and dependency inlining -/

/-- One task argument: a (possibly empty) list of referenced object ids,
plus inline data and metadata buffers. -/
structure Arg where
  objectIds : List ObjectID
  data : Option (List Nat)
  metadata : Option (List Nat)
deriving DecidableEq, Repr

/-- A task specification: its id, the number of return objects, and the
ordered argument list. -/
structure TaskSpec where
  taskId : Nat
  numReturns : Nat
  args : List Arg
deriving DecidableEq, Repr

/-- The body of the `DoInlineObjectValue` loop for one argument slot: when
the slot's first referenced id is the target, clear the id list and either
push back the plasma-transport id (for an in-plasma-error value) or copy the
value's buffers into the slot. -/
def inlineArg (objId : ObjectID) (value : RayObject) (a : Arg) : Arg :=
  match a.objectIds with
  | [] => a
  | firstId :: _ =>
    if firstId = objId then
      if value.IsInPlasmaError then
        { a with objectIds := [objId.withRayletTransport] }
      else
        { a with
          objectIds := [],
          data := if value.HasData then value.data else a.data,
          metadata := if value.HasMetadata then value.metadata else a.metadata }
    else a

/-- Whether an argument slot's first referenced id (`ArgId(i, 0)`, read only
when `ArgIdCount(i) > 0`) is the target id. -/
def referencesFirst (objId : ObjectID) (a : Arg) : Bool :=
  match a.objectIds with
  | [] => false
  | firstId :: _ => firstId = objId

/-- `DoInlineObjectValue`: rewrite every argument slot whose first
referenced id is `objId`; `none` is the `RAY_CHECK(found)` abort when no
slot referenced it. -/
def doInlineObjectValue (objId : ObjectID) (value : RayObject) (task : TaskSpec) :
    Option TaskSpec :=
  if task.args.any (referencesFirst objId) then
    some { task with args := task.args.map (inlineArg objId value) }
  else none

/-! ### `CoreWorkerDirectTaskSubmitter`

The submitter state under its mutex.  `outstanding` is an auxiliary counter
of lease requests issued to the lease client and not yet granted; it mirrors
the `RequestWorkerLease` / `HandleWorkerLeaseGranted` pairing and lets the
pipelining discipline be stated. -/

/-- The submitter state: `queued_tasks_`, `worker_request_pending_`, the
addresses held in `client_cache_`, and the issued-minus-granted lease
counter. -/
structure DTSState where
  queued : List TaskSpec
  pending : Bool
  cache : List WorkerAddress
  outstanding : Nat
deriving DecidableEq, Repr

/-- The submitter as constructed. -/
def DTSState.init : DTSState :=
  { queued := [], pending := false, cache := [], outstanding := 0 }

/-- `RequestNewWorkerIfNeeded`: pipeline at most one outstanding lease
request — return when one is pending, otherwise issue
`lease_client.RequestWorkerLease(resource_spec)` and mark it pending. -/
def requestNewWorkerIfNeeded (dts : DTSState) (resourceSpec : TaskSpec) :
    DTSState × List Effect :=
  if dts.pending then (dts, [])
  else
    ({ dts with pending := true, outstanding := dts.outstanding + 1 },
      [Effect.requestLease resourceSpec.taskId])

/-- Modelled from the spec: `TreatTaskAsFailed` is only declared in this
translation unit; per the spec it Puts, for each of the `num_returns` result
ids, a `RayObject` whose metadata encodes the error type, unblocking any
waiter.  Return ids are derived injectively from the task id and the return
index. -/
def returnObjectId (taskId i : Nat) : ObjectID := ⟨Nat.pair taskId i, true⟩

/-- The return ids of a task with `n` returns. -/
def returnObjectIds (taskId n : Nat) : List ObjectID :=
  (List.range n).map (returnObjectId taskId)

/-- Perform a sequence of `Put`s into the store, recording each call in the
trace; `none` propagates a `RAY_CHECK` abort of a `Put`. -/
def putSeq (s : StoreState) : List (ObjectID × RayObject) →
    Option (StoreState × List Effect)
  | [] => some (s, [])
  | (id, obj) :: rest =>
    match put s id obj with
    | none => none
    | some (_, s1, e1) =>
      (putSeq s1 rest).map (fun r => (r.1, (Effect.putCall id obj :: e1) ++ r.2))

/-- Modelled from the spec: `TreatTaskAsFailed(task_id, num_returns,
error_type, in_memory_store)` — put a synthetic failure object carrying the
error metadata under each of the task's return ids. -/
def treatTaskAsFailed (taskId numReturns : Nat) (e : ErrorType) (s : StoreState) :
    Option (StoreState × List Effect) :=
  putSeq s ((returnObjectIds taskId numReturns).map
    (fun id => (id, ({ data := none, metadata := some (errorMetadata e) } : RayObject))))

/-- Modelled from the spec: `WriteObjectsToMemoryStore(reply,
in_memory_store)` — write each object returned in the push reply into the
store.  The reply is abstracted to its id/object pairs. -/
def writeObjectsToMemoryStore (reply : List (ObjectID × RayObject)) (s : StoreState) :
    Option (StoreState × List Effect) :=
  putSeq s reply

/-- The synchronous part of `PushNormalTask`: record the task id and return
count, hand the payload to `stub.PushNormalTask` (whose synchronous status
`syncOk` the environment supplies), and on synchronous failure apply the
`WORKER_DIED` propagation without returning the worker. -/
def pushNormalTask (addr : WorkerAddress) (t : TaskSpec) (syncOk : Bool)
    (ims : StoreState) : Option (StoreState × List Effect) :=
  let e0 := [Effect.pushTask addr t.taskId]
  if syncOk then some (ims, e0)
  else
    (treatTaskAsFailed t.taskId t.numReturns .WORKER_DIED ims).map
      (fun r => (r.1, e0 ++ r.2))

/-- The trailing step of `OnWorkerIdle`: when tasks remain queued after the
body, request another worker for the queue head. -/
def idleTailRequest (r : DTSState × StoreState × List Effect) :
    DTSState × StoreState × List Effect :=
  match r.1.queued with
  | [] => r
  | t :: _ =>
    let r2 := requestNewWorkerIfNeeded r.1 t
    (r2.1, r.2.1, r.2.2 ++ r2.2)

/-- `OnWorkerIdle`: with an empty queue or after an error, return the worker
to the lease service; otherwise push the queue head to the worker.  Then,
if tasks remain queued, request another worker. -/
def onWorkerIdle (addr : WorkerAddress) (wasError syncOk : Bool)
    (dts : DTSState) (ims : StoreState) :
    Option (DTSState × StoreState × List Effect) :=
  if dts.queued.isEmpty || wasError then
    some (idleTailRequest (dts, ims, [Effect.returnWorker addr.2]))
  else
    match dts.queued with
    | [] => some (idleTailRequest (dts, ims, [Effect.returnWorker addr.2]))
    | t :: rest =>
      (pushNormalTask addr t syncOk ims).map
        (fun r => idleTailRequest ({ dts with queued := rest }, r.1, r.2))

/-- The completion handler of `PushNormalTask`: mark the worker idle (as an
error when the push status is not OK), then either propagate `WORKER_DIED`
failure objects for every return id or write the reply's objects into the
store. -/
def pushCompletion (taskId numReturns : Nat) (addr : WorkerAddress)
    (ok syncOk : Bool) (reply : List (ObjectID × RayObject))
    (dts : DTSState) (ims : StoreState) :
    Option (DTSState × StoreState × List Effect) :=
  (onWorkerIdle addr (!ok) syncOk dts ims).bind (fun r =>
    if ok then
      (writeObjectsToMemoryStore reply r.2.1).map
        (fun w => (r.1, w.1, r.2.2 ++ w.2))
    else
      (treatTaskAsFailed taskId numReturns .WORKER_DIED r.2.1).map
        (fun w => (r.1, w.1, r.2.2 ++ w.2)))

/-- The under-lock part of `HandleWorkerLeaseGranted`: clear
`worker_request_pending_` (one grant answers one issued request) and cache a
stub for the address; the subsequent `OnWorkerIdle(addr, false)` runs
outside the lock as its own event. -/
def handleWorkerLeaseGrantedLock (addr : WorkerAddress) (dts : DTSState) : DTSState :=
  { dts with
    pending := false,
    outstanding := dts.outstanding - 1,
    cache := if addr ∈ dts.cache then dts.cache else addr :: dts.cache }

/-- The resolver-completion callback body of `SubmitTask`: request a worker
if needed, then append the resolved task to the queue. -/
def submitResolved (t : TaskSpec) (dts : DTSState) : DTSState × List Effect :=
  let r := requestNewWorkerIfNeeded dts t
  ({ r.1 with queued := r.1.queued ++ [t] }, r.2)

/-- One submitter event: a task finishing resolution, a lease grant
arriving (only issued requests are granted), or a worker turning idle with
the push outcome the environment chose. -/
inductive DtsEvent where
  | submitE (t : TaskSpec)
  | grantE (addr : WorkerAddress)
  | idleE (addr : WorkerAddress) (wasError syncOk : Bool)

/-- The transition of one submitter event over the submitter and store
state; `none` is an abort or an impossible grant. -/
def dtsStep (st : DTSState × StoreState) : DtsEvent → Option (DTSState × StoreState)
  | .submitE t => some ((submitResolved t st.1).1, st.2)
  | .grantE addr =>
    if st.1.outstanding = 0 then none
    else some (handleWorkerLeaseGrantedLock addr st.1, st.2)
  | .idleE addr we so => (onWorkerIdle addr we so st.1 st.2).map (fun r => (r.1, r.2.1))

/-- The submitter states reachable from construction. -/
inductive DtsReachable : DTSState × StoreState → Prop
  | init (b : Bool) : DtsReachable (DTSState.init, StoreState.init b)
  | step {st st' : DTSState × StoreState} {e : DtsEvent} :
      DtsReachable st → dtsStep st e = some st' → DtsReachable st'

/-! ### Concrete stores and objects used by the example theorems -/

/-- A direct-call id. -/
def aEx : ObjectID := ⟨0, true⟩

/-- A second direct-call id. -/
def bEx : ObjectID := ⟨1, true⟩

/-- A plain object with one data byte. -/
def vEx : RayObject := ⟨some [1], none⟩

/-- A second plain object. -/
def wEx : RayObject := ⟨some [2], none⟩

/-- A store holding only `aEx ↦ vEx`. -/
def storeA : StoreState :=
  { objects := [(aEx, vEx)], asyncWaiters := [], syncWaiters := [],
    requests := [], promoted := [], hasPlasma := true, nextReq := 0 }

/-- A store holding `aEx ↦ vEx` and `bEx ↦ wEx`. -/
def storeAB : StoreState :=
  { objects := [(aEx, vEx), (bEx, wEx)], asyncWaiters := [], syncWaiters := [],
    requests := [], promoted := [], hasPlasma := true, nextReq := 0 }

/-- The store after `Get([aEx], 1, t, remove_after_get = true)` registered
its request on the empty store: one live request, registered under `aEx`. -/
def storeWaiting : StoreState :=
  { objects := [], asyncWaiters := [], syncWaiters := [(aEx, [0])],
    requests := [(0, ⟨[aEx], [], 1, true, false⟩)],
    promoted := [], hasPlasma := true, nextReq := 1 }

/-- `storeWaiting` after `Put(aEx, vEx)`: the request was satisfied (and,
wanting removal, suppressed the `objects_` insertion) but remains
registered until its `Get` deregisters it. -/
def storeSatisfied : StoreState :=
  { objects := [], asyncWaiters := [], syncWaiters := [(aEx, [0])],
    requests := [(0, ⟨[aEx], [(aEx, vEx)], 1, true, true⟩)],
    promoted := [], hasPlasma := true, nextReq := 1 }

/-! ### Association-list lemmas -/

theorem alookup_aupdate [DecidableEq κ] (l : List (κ × α)) (k : κ) (v : α) (k' : κ) :
    alookup (aupdate l k v) k' =
      (alookup l k').map (fun w => if k' = k then v else w) := by
  induction l with
  | nil => rfl
  | cons p rest ih =>
    obtain ⟨k0, w0⟩ := p
    by_cases h0 : k0 = k
    · subst h0
      by_cases h1 : k' = k0 <;> simp [aupdate, alookup, h1, ih]
    · by_cases h1 : k' = k0
      · subst h1
        simp [aupdate, alookup, h0, Ne.symm h0]
      · simp [aupdate, alookup, h0, h1, ih]

theorem alookup_aerase [DecidableEq κ] (l : List (κ × α)) (k k' : κ) :
    alookup (aerase l k) k' = if k' = k then none else alookup l k' := by
  induction l with
  | nil => simp [aerase, alookup]
  | cons p rest ih =>
    obtain ⟨k0, w0⟩ := p
    by_cases h0 : k0 = k
    · subst h0
      by_cases h1 : k' = k0
      · subst h1
        simp [aerase, alookup, ih]
      · simp [aerase, alookup, h1, ih]
    · by_cases h1 : k' = k0
      · subst h1
        simp [aerase, alookup, h0, Ne.symm h0]
      · simp [aerase, alookup, h0, h1, ih]

theorem alookup_emplace_self [DecidableEq κ] (l : List (κ × α)) (k : κ) (v : α)
    (h : alookup l k = none) : alookup (emplace l k v) k = some v := by
  simp [emplace, h, alookup]

theorem emplace_length_le [DecidableEq κ] (l : List (κ × α)) (k : κ) (v : α) :
    (emplace l k v).length ≤ l.length + 1 := by
  unfold emplace
  cases alookup l k <;> simp

/-! ### Scan-loop lemmas -/

theorem scanGo_stop (objs : List (ObjectID × RayObject)) (l : List ObjectID)
    {c n : Nat} (r : Bool) (h : ¬ c < n) :
    scanGo objs l c n r = ⟨List.replicate l.length none, c, [], []⟩ := by
  cases l with
  | nil => simp [scanGo]
  | cons id rest => simp [scanGo, h]

theorem scanGo_append (objs : List (ObjectID × RayObject)) (p q : List ObjectID)
    (c n : Nat) (r : Bool) :
    scanGo objs (p ++ q) c n r =
      ⟨(scanGo objs p c n r).results ++ (scanGo objs q (scanGo objs p c n r).count n r).results,
        (scanGo objs q (scanGo objs p c n r).count n r).count,
        (scanGo objs p c n r).toRemove ++ (scanGo objs q (scanGo objs p c n r).count n r).toRemove,
        (scanGo objs p c n r).remaining ++
          (scanGo objs q (scanGo objs p c n r).count n r).remaining⟩ := by
  induction p generalizing c with
  | nil => simp [scanGo]
  | cons id rest ih =>
    by_cases hc : c < n
    · cases hlk : alookup objs id with
      | some v =>
        rw [List.cons_append]
        simp only [scanGo, hc, if_true, hlk, ih (c + 1)]
        simp [List.append_assoc]
      | none =>
        rw [List.cons_append]
        simp only [scanGo, hc, if_true, hlk, ih c]
        simp
    · rw [scanGo_stop objs (id :: rest ++ q) r hc, scanGo_stop objs (id :: rest) r hc,
        scanGo_stop objs q r hc]
      have hlen : (id :: rest ++ q).length = (id :: rest).length + q.length := by
        simp
        omega
      rw [hlen, List.replicate_add]
      simp


theorem scanGo_count_le (objs : List (ObjectID × RayObject)) (ids : List ObjectID)
    {c n : Nat} (r : Bool) (h : c ≤ n) : (scanGo objs ids c n r).count ≤ n := by
  induction ids generalizing c with
  | nil => exact h
  | cons id rest ih =>
    by_cases hc : c < n
    · cases hlk : alookup objs id with
      | some v =>
        simp only [scanGo, hc, if_true, hlk]
        exact ih hc
      | none =>
        simp only [scanGo, hc, if_true, hlk]
        exact ih h
    · rw [scanGo_stop objs (id :: rest) r hc]
      exact h

theorem scanGo_results_length (objs : List (ObjectID × RayObject)) (ids : List ObjectID)
    (c n : Nat) (r : Bool) : (scanGo objs ids c n r).results.length = ids.length := by
  induction ids generalizing c with
  | nil => rfl
  | cons id rest ih =>
    by_cases hc : c < n
    · cases hlk : alookup objs id with
      | some v =>
        simp only [scanGo, hc, if_true, hlk]
        simp [ih (c + 1)]
      | none =>
        simp only [scanGo, hc, if_true, hlk]
        simp [ih c]
    · rw [scanGo_stop objs (id :: rest) r hc]
      simp

theorem getScanPhase_fst {s : StoreState} {ids : List ObjectID} {n : Nat} {r : Bool}
    {sc : ScanResult} {s1 : StoreState} {orid : Option Nat}
    (hp : getScanPhase s ids n r = some (sc, s1, orid)) :
    sc = scanGo s.objects ids 0 n r := by
  unfold getScanPhase at hp
  dsimp only at hp
  split at hp
  · exact (congrArg (fun x => x.1) (Option.some.inj hp)).symm
  · split at hp
    · cases hp
    · exact (congrArg (fun x => x.1) (Option.some.inj hp)).symm

theorem populateResults_get_some (req : GetRequest) {ids : List ObjectID}
    {results : List (Option RayObject)} {j : Nat} {v : RayObject}
    (hj : results.get? j = some (some v)) (hlen : results.length ≤ ids.length) :
    (populateResults req ids results).get? j = some (some v) := by
  induction results generalizing ids j with
  | nil => cases hj
  | cons r0 rest ih =>
    cases ids with
    | nil => simp at hlen
    | cons i irest =>
      cases j with
      | zero =>
        injection hj with hj
        subst hj
        rfl
      | succ j2 =>
        have hlen2 : rest.length ≤ irest.length := by simpa using hlen
        have hrec := ih hj hlen2
        simpa [populateResults, List.zip_cons_cons] using hrec

/-! ### `Put` fold lemmas -/

theorem set_removeAfterGet (req : GetRequest) (id : ObjectID) (obj : RayObject) :
    (req.set id obj).removeAfterGet = req.removeAfterGet := by
  by_cases h : req.isReady <;> simp [GetRequest.set, h]

theorem putSetFold_snd (id : ObjectID) (entry : RayObject) (rids : List Nat)
    (pool : List (Nat × GetRequest)) (sa : Bool)
    (h : ∀ rid req, rid ∈ rids → alookup pool rid = some req → req.removeAfterGet = false) :
    (putSetFold id entry rids pool sa).2 = sa := by
  induction rids generalizing pool sa with
  | nil => rfl
  | cons rid rest ih =>
    simp only [putSetFold]
    cases hlk : alookup pool rid with
    | none =>
      exact ih pool sa (fun r q hr hq => h r q (List.mem_cons_of_mem _ hr) hq)
    | some req =>
      have hrag : req.removeAfterGet = false := h rid req (List.mem_cons_self _ _) hlk
      dsimp only
      rw [hrag]
      simp only [Bool.not_false, Bool.and_true]
      apply ih
      intro r q hr hq
      rw [alookup_aupdate] at hq
      cases hlk2 : alookup pool r with
      | none =>
        rw [hlk2] at hq
        cases hq
      | some q0 =>
        rw [hlk2] at hq
        simp only [Option.map_some', Option.some.injEq] at hq
        by_cases hrr : r = rid
        · rw [if_pos hrr] at hq
          rw [← hq, set_removeAfterGet]
          exact hrag
        · rw [if_neg hrr] at hq
          rw [← hq]
          exact h r q0 (List.mem_cons_of_mem _ hr) hlk2

/-! ### Request-arena invariant lemmas -/

theorem set_not_ready (req : GetRequest) (id : ObjectID) (obj : RayObject)
    (hf : req.isReady = false) :
    req.set id obj =
      { req with objects := emplace req.objects id obj,
                 isReady := (emplace req.objects id obj).length == req.numObjects } := by
  unfold GetRequest.set
  rw [hf]
  simp

theorem reqBound_set (req : GetRequest) (id : ObjectID) (obj : RayObject)
    (h : reqBound req) : reqBound (req.set id obj) := by
  by_cases hr : req.isReady = true
  · unfold GetRequest.set
    rw [if_pos hr]
    exact h
  · have hf : req.isReady = false := by simpa using hr
    rw [set_not_ready req id obj hf]
    intro hready hpos
    dsimp only at hready hpos ⊢
    have hne : (emplace req.objects id obj).length ≠ req.numObjects := by
      simpa using hready
    have hlt : req.objects.length < req.numObjects := h hf hpos
    have hle : (emplace req.objects id obj).length ≤ req.objects.length + 1 :=
      emplace_length_le _ _ _
    omega

theorem poolBound_aupdate (pool : List (Nat × GetRequest)) (rid : Nat) (v : GetRequest)
    (h : poolBound pool) (hv : reqBound v) : poolBound (aupdate pool rid v) := by
  intro r q hq
  rw [alookup_aupdate] at hq
  cases hl : alookup pool r with
  | none =>
    rw [hl] at hq
    cases hq
  | some q0 =>
    rw [hl] at hq
    simp only [Option.map_some', Option.some.injEq] at hq
    by_cases hrr : r = rid
    · rw [if_pos hrr] at hq
      rw [← hq]
      exact hv
    · rw [if_neg hrr] at hq
      rw [← hq]
      exact h r q0 hl

theorem poolBound_putSetFold (id : ObjectID) (entry : RayObject) (rids : List Nat)
    (pool : List (Nat × GetRequest)) (sa : Bool) (h : poolBound pool) :
    poolBound (putSetFold id entry rids pool sa).1 := by
  induction rids generalizing pool sa with
  | nil => exact h
  | cons rid rest ih =>
    simp only [putSetFold]
    cases hlk : alookup pool rid with
    | none => exact ih pool sa h
    | some req =>
      dsimp only
      exact ih _ _ (poolBound_aupdate pool rid _ h (reqBound_set req id entry (h rid req hlk)))

theorem poolBound_aerase (pool : List (Nat × GetRequest)) (k : Nat)
    (h : poolBound pool) : poolBound (aerase pool k) := by
  intro r q hq
  rw [alookup_aerase] at hq
  by_cases hrr : r = k
  · rw [if_pos hrr] at hq
    cases hq
  · rw [if_neg hrr] at hq
    exact h r q hq

theorem put_poolBound {s : StoreState} {id : ObjectID} {obj : RayObject}
    {st : Status} {s1 : StoreState} {eff : List Effect}
    (hp : put s id obj = some (st, s1, eff)) (h : poolBound s.requests) :
    poolBound s1.requests := by
  unfold put at hp
  by_cases hd : id.IsDirectCallType = false
  · rw [if_pos hd] at hp
    cases hp
  rw [if_neg hd] at hp
  cases hobj : alookup s.objects id with
  | some o =>
    rw [hobj] at hp
    simp only [Option.some.injEq, Prod.mk.injEq] at hp
    obtain ⟨_, h1, _⟩ := hp
    rw [← h1]
    exact h
  | none =>
    rw [hobj] at hp
    by_cases hpl : id ∈ s.promoted ∧ s.hasPlasma = false
    · rw [if_pos hpl] at hp
      cases hp
    rw [if_neg hpl] at hp
    simp only [Option.some.injEq, Prod.mk.injEq] at hp
    obtain ⟨_, h1, _⟩ := hp
    rw [← h1]
    exact poolBound_putSetFold _ _ _ _ _ h

theorem registerGetRequest_poolBound {s : StoreState} {rem : List ObjectID}
    {required : Nat} {r : Bool} (h : poolBound s.requests) :
    poolBound (registerGetRequest s rem required r).2.requests := by
  intro rid q hq
  simp only [registerGetRequest] at hq
  by_cases hrr : rid = s.nextReq
  · simp only [alookup, hrr, if_true, Option.some.injEq] at hq
    rw [← hq]
    intro _ hpos
    simpa using hpos
  · simp only [alookup, hrr, if_false] at hq
    exact h rid q hq

theorem getScanPhase_poolBound {s : StoreState} {ids : List ObjectID} {n : Nat}
    {r : Bool} {sc : ScanResult} {s1 : StoreState} {orid : Option Nat}
    (hp : getScanPhase s ids n r = some (sc, s1, orid)) (h : poolBound s.requests) :
    poolBound s1.requests := by
  unfold getScanPhase at hp
  dsimp only at hp
  split at hp
  · simp only [Option.some.injEq, Prod.mk.injEq] at hp
    obtain ⟨_, h1, _⟩ := hp
    rw [← h1]
    exact h
  · split at hp
    · cases hp
    · simp only [Option.some.injEq, Prod.mk.injEq] at hp
      obtain ⟨_, h1, _⟩ := hp
      rw [← h1]
      exact registerGetRequest_poolBound h

theorem deregister_poolBound {s : StoreState} {rid : Nat} (h : poolBound s.requests) :
    poolBound (deregisterGetRequest s rid).requests := by
  unfold deregisterGetRequest
  cases hl : alookup s.requests rid with
  | none => exact h
  | some req =>
    dsimp only
    exact poolBound_aerase _ _ h

theorem getAsync_poolBound {s : StoreState} {id : ObjectID} {cb : Nat}
    (h : poolBound s.requests) : poolBound (getAsync s id cb).1.requests := by
  unfold getAsync
  cases alookup s.objects id <;> exact h

theorem getOrPromote_poolBound {s : StoreState} {id : ObjectID}
    {res : Option RayObject} {s1 : StoreState}
    (hp : getOrPromoteToPlasma s id = some (res, s1)) (h : poolBound s.requests) :
    poolBound s1.requests := by
  unfold getOrPromoteToPlasma at hp
  cases hl : alookup s.objects id with
  | some o =>
    rw [hl] at hp
    dsimp only at hp
    by_cases hpe : o.IsInPlasmaError = true
    · rw [if_pos hpe] at hp
      simp only [Option.some.injEq, Prod.mk.injEq] at hp
      obtain ⟨_, h1⟩ := hp
      rw [← h1]
      exact h
    · rw [if_neg hpe] at hp
      simp only [Option.some.injEq, Prod.mk.injEq] at hp
      obtain ⟨_, h1⟩ := hp
      rw [← h1]
      exact h
  | none =>
    rw [hl] at hp
    dsimp only at hp
    by_cases hpm : s.hasPlasma = true
    · rw [if_pos hpm] at hp
      simp only [Option.some.injEq, Prod.mk.injEq] at hp
      obtain ⟨_, h1⟩ := hp
      rw [← h1]
      exact h
    · rw [if_neg hpm] at hp
      cases hp

theorem storeReachable_poolBound (s : StoreState) (h : StoreReachable s) :
    poolBound s.requests := by
  induction h with
  | init b =>
    intro rid req hq
    simp [StoreState.init, alookup] at hq
  | step hr hstep ih =>
    rename_i s0 s1 e
    cases e with
    | putE id obj =>
      simp only [storeStep] at hstep
      cases hput : put s0 id obj with
      | none =>
        rw [hput] at hstep
        cases hstep
      | some r0 =>
        rw [hput] at hstep
        simp only [Option.map_some', Option.some.injEq] at hstep
        rw [← hstep]
        exact put_poolBound hput ih
    | getStartE ids n r =>
      simp only [storeStep] at hstep
      cases hgp : getScanPhase s0 ids n r with
      | none =>
        rw [hgp] at hstep
        cases hstep
      | some r0 =>
        rw [hgp] at hstep
        simp only [Option.map_some', Option.some.injEq] at hstep
        rw [← hstep]
        exact getScanPhase_poolBound hgp ih
    | getFinishE rid =>
      simp only [storeStep, Option.some.injEq] at hstep
      rw [← hstep]
      exact deregister_poolBound ih
    | getAsyncE id cb =>
      simp only [storeStep, Option.some.injEq] at hstep
      rw [← hstep]
      exact getAsync_poolBound ih
    | getOrPromoteE id =>
      simp only [storeStep] at hstep
      cases hgp : getOrPromoteToPlasma s0 id with
      | none =>
        rw [hgp] at hstep
        cases hstep
      | some r0 =>
        rw [hgp] at hstep
        simp only [Option.map_some', Option.some.injEq] at hstep
        rw [← hstep]
        exact getOrPromote_poolBound hgp ih
    | deleteE ids =>
      simp only [storeStep, Option.some.injEq] at hstep
      rw [← hstep]
      exact ih

/-! ### Submitter-invariant and effect-trace lemmas -/

theorem requestNewWorkerIfNeeded_inv (dts : DTSState) (t : TaskSpec)
    (h : dts.outstanding = if dts.pending then 1 else 0) :
    (requestNewWorkerIfNeeded dts t).1.outstanding =
      if (requestNewWorkerIfNeeded dts t).1.pending then 1 else 0 := by
  unfold requestNewWorkerIfNeeded
  by_cases hp : dts.pending = true
  · rw [if_pos hp]
    exact h
  · rw [if_neg hp]
    have hf : dts.pending = false := by simpa using hp
    rw [h, hf]
    simp

theorem idleTailRequest_inv (r : DTSState × StoreState × List Effect)
    (h : r.1.outstanding = if r.1.pending then 1 else 0) :
    (idleTailRequest r).1.outstanding =
      if (idleTailRequest r).1.pending then 1 else 0 := by
  unfold idleTailRequest
  cases hq : r.1.queued with
  | nil => exact h
  | cons t rest =>
    dsimp only
    exact requestNewWorkerIfNeeded_inv r.1 t h

theorem onWorkerIdle_inv {addr : WorkerAddress} {we so : Bool} {dts : DTSState}
    {ims : StoreState} {r1 : DTSState × StoreState × List Effect}
    (hp : onWorkerIdle addr we so dts ims = some r1)
    (h : dts.outstanding = if dts.pending then 1 else 0) :
    r1.1.outstanding = if r1.1.pending then 1 else 0 := by
  unfold onWorkerIdle at hp
  by_cases hc : (dts.queued.isEmpty || we) = true
  · rw [if_pos hc] at hp
    injection hp with hp
    rw [← hp]
    exact idleTailRequest_inv _ h
  · rw [if_neg hc] at hp
    cases hqq : dts.queued with
    | nil =>
      rw [hqq] at hc
      simp at hc
    | cons t rest =>
      rw [hqq] at hp
      dsimp only at hp
      cases hpn : pushNormalTask addr t so ims with
      | none =>
        rw [hpn] at hp
        cases hp
      | some r2 =>
        rw [hpn] at hp
        simp only [Option.map_some', Option.some.injEq] at hp
        rw [← hp]
        exact idleTailRequest_inv _ h

theorem dtsReachable_inv (st : DTSState × StoreState) (h : DtsReachable st) :
    st.1.outstanding = if st.1.pending then 1 else 0 := by
  induction h with
  | init b => rfl
  | step hr hstep ih =>
    rename_i st0 st1 e
    cases e with
    | submitE t =>
      simp only [dtsStep, Option.some.injEq] at hstep
      rw [← hstep]
      unfold submitResolved
      dsimp only
      exact requestNewWorkerIfNeeded_inv st0.1 t ih
    | grantE addr =>
      simp only [dtsStep] at hstep
      by_cases hz : st0.1.outstanding = 0
      · rw [if_pos hz] at hstep
        cases hstep
      · rw [if_neg hz] at hstep
        injection hstep with hstep
        rw [← hstep]
        unfold handleWorkerLeaseGrantedLock
        dsimp only
        by_cases hpd : st0.1.pending = true
        · rw [ih, if_pos hpd]
          simp
        · exfalso
          apply hz
          rw [ih]
          simp [hpd]
    | idleE addr we so =>
      simp only [dtsStep] at hstep
      cases hoi : onWorkerIdle addr we so st0.1 st0.2 with
      | none =>
        rw [hoi] at hstep
        cases hstep
      | some r1 =>
        rw [hoi] at hstep
        simp only [Option.map_some', Option.some.injEq] at hstep
        rw [← hstep]
        exact onWorkerIdle_inv hoi ih

theorem put_effects_shape {s : StoreState} {id : ObjectID} {obj : RayObject}
    {st : Status} {s1 : StoreState} {eff : List Effect}
    (hp : put s id obj = some (st, s1, eff)) :
    ∀ x ∈ eff, (∃ o i, x = Effect.storePlasma o i) ∨ (∃ cb o, x = Effect.asyncCb cb o) := by
  unfold put at hp
  by_cases hd : id.IsDirectCallType = false
  · rw [if_pos hd] at hp
    cases hp
  rw [if_neg hd] at hp
  cases hobj : alookup s.objects id with
  | some o =>
    rw [hobj] at hp
    simp only [Option.some.injEq, Prod.mk.injEq] at hp
    obtain ⟨_, _, h2⟩ := hp
    rw [← h2]
    intro x hx
    cases hx
  | none =>
    rw [hobj] at hp
    by_cases hpl : id ∈ s.promoted ∧ s.hasPlasma = false
    · rw [if_pos hpl] at hp
      cases hp
    rw [if_neg hpl] at hp
    simp only [Option.some.injEq, Prod.mk.injEq] at hp
    obtain ⟨_, _, h2⟩ := hp
    rw [← h2]
    intro x hx
    rcases List.mem_append.1 hx with hx1 | hx2
    · by_cases hpr : id ∈ s.promoted
      · rw [if_pos hpr] at hx1
        rcases List.mem_singleton.1 hx1 with rfl
        exact Or.inl ⟨_, _, rfl⟩
      · rw [if_neg hpr] at hx1
        cases hx1
    · rcases List.mem_map.1 hx2 with ⟨cb, _, rfl⟩
      exact Or.inr ⟨_, _, rfl⟩

theorem putSeq_effects_shape {s : StoreState} {pairs : List (ObjectID × RayObject)}
    {s1 : StoreState} {eff : List Effect} (hp : putSeq s pairs = some (s1, eff)) :
    ∀ x ∈ eff, (∃ i o, x = Effect.putCall i o) ∨ (∃ o i, x = Effect.storePlasma o i) ∨
      (∃ cb o, x = Effect.asyncCb cb o) := by
  induction pairs generalizing s s1 eff with
  | nil =>
    unfold putSeq at hp
    simp only [Option.some.injEq, Prod.mk.injEq] at hp
    obtain ⟨_, h2⟩ := hp
    rw [← h2]
    intro x hx
    cases hx
  | cons q rest ih =>
    obtain ⟨id, obj⟩ := q
    unfold putSeq at hp
    cases hput : put s id obj with
    | none =>
      rw [hput] at hp
      cases hp
    | some r0 =>
      obtain ⟨st0, s10, e10⟩ := r0
      rw [hput] at hp
      dsimp only at hp
      cases hps : putSeq s10 rest with
      | none =>
        rw [hps] at hp
        cases hp
      | some r1 =>
        rw [hps] at hp
        simp only [Option.map_some', Option.some.injEq, Prod.mk.injEq] at hp
        obtain ⟨_, h2⟩ := hp
        rw [← h2]
        intro x hx
        rcases List.mem_append.1 hx with hx1 | hx2
        · rcases List.mem_cons.1 hx1 with rfl | hx1t
          · exact Or.inl ⟨_, _, rfl⟩
          · rcases put_effects_shape hput x hx1t with h | h
            · exact Or.inr (Or.inl h)
            · exact Or.inr (Or.inr h)
        · exact ih hps x hx2

theorem putSeq_putCall_mem {s : StoreState} {pairs : List (ObjectID × RayObject)}
    {s1 : StoreState} {eff : List Effect} (hp : putSeq s pairs = some (s1, eff)) :
    ∀ pr ∈ pairs, Effect.putCall pr.1 pr.2 ∈ eff := by
  induction pairs generalizing s s1 eff with
  | nil =>
    intro pr hpr
    cases hpr
  | cons q rest ih =>
    obtain ⟨id, obj⟩ := q
    unfold putSeq at hp
    cases hput : put s id obj with
    | none =>
      rw [hput] at hp
      cases hp
    | some r0 =>
      obtain ⟨st0, s10, e10⟩ := r0
      rw [hput] at hp
      dsimp only at hp
      cases hps : putSeq s10 rest with
      | none =>
        rw [hps] at hp
        cases hp
      | some r1 =>
        rw [hps] at hp
        simp only [Option.map_some', Option.some.injEq, Prod.mk.injEq] at hp
        obtain ⟨_, h2⟩ := hp
        rw [← h2]
        intro pr hpr
        rcases List.mem_cons.1 hpr with rfl | htl
        · exact List.mem_append_left _ (List.mem_cons_self _ _)
        · exact List.mem_append_right _ (ih hps pr htl)

theorem returnObjectId_mem {taskId n i : Nat} (h : i < n) :
    returnObjectId taskId i ∈ returnObjectIds taskId n := by
  unfold returnObjectIds
  exact List.mem_map_of_mem _ (List.mem_range.2 h)

theorem onWorkerIdle_error (addr : WorkerAddress) (so : Bool) (dts : DTSState)
    (ims : StoreState) :
    ∃ d1 e2, onWorkerIdle addr true so dts ims =
        some (d1, ims, Effect.returnWorker addr.2 :: e2) ∧
      (∀ a t, Effect.pushTask a t ∉ e2) ∧ (∀ p, Effect.returnWorker p ∉ e2) := by
  unfold onWorkerIdle
  simp only [Bool.or_true, if_true]
  unfold idleTailRequest
  cases hq : dts.queued with
  | nil =>
    exact ⟨dts, [], rfl, by simp, by simp⟩
  | cons t rest =>
    dsimp only
    unfold requestNewWorkerIfNeeded
    by_cases hp : dts.pending = true
    · rw [if_pos hp]
      exact ⟨dts, [], rfl, by simp, by simp⟩
    · rw [if_neg hp]
      dsimp only
      refine ⟨_, [Effect.requestLease t.taskId], rfl, ?_, ?_⟩
      · intro a tt hmem
        simp at hmem
      · intro p hmem
        simp at hmem

/-! ## Claim theorems -/

/-- C4: for every `Put(id, object)` where `id` is already present in
`objects`, `Put` returns `ObjectExists`, every component of the store state
is unchanged (the state is returned as-is), and no async callback,
`GetRequest::Set`, or `store_in_plasma` call is made (the effect trace is
empty and the request arena is untouched). -/
theorem claim_C4 (s : StoreState) (id : ObjectID) (obj o : RayObject)
    (hd : id.IsDirectCallType = true) (ho : alookup s.objects id = some o) :
    put s id obj = some (.ObjectExists, s, []) := by
  simp [put, hd, ho]

/-- Witness for C4: a duplicate put of `aEx` into `storeA` fails with
`ObjectExists` and changes nothing. -/
theorem claim_C4_witness : put storeA aEx wEx = some (.ObjectExists, storeA, []) :=
  claim_C4 storeA aEx wEx vEx rfl rfl

/-- C7: `GetOrPromoteToPlasma` by cases — present and not in-plasma-error
returns the object with no state change; present with in-plasma-error
returns absent with no state change; absent inserts the id into
`promoted_to_plasma` and returns absent, aborting when `store_in_plasma`
is null. -/
theorem claim_C7 (s : StoreState) (id : ObjectID) :
    (∀ o, alookup s.objects id = some o → o.IsInPlasmaError = false →
        getOrPromoteToPlasma s id = some (some o, s)) ∧
    (∀ o, alookup s.objects id = some o → o.IsInPlasmaError = true →
        getOrPromoteToPlasma s id = some (none, s)) ∧
    (alookup s.objects id = none → s.hasPlasma = true →
        getOrPromoteToPlasma s id =
          some (none, { s with promoted := insertUniq s.promoted id })) ∧
    (alookup s.objects id = none → s.hasPlasma = false →
        getOrPromoteToPlasma s id = none) := by
  refine ⟨?_, ?_, ?_, ?_⟩
  · intro o ho hp
    simp [getOrPromoteToPlasma, ho, hp]
  · intro o ho hp
    simp [getOrPromoteToPlasma, ho, hp]
  · intro ho hp
    simp [getOrPromoteToPlasma, ho, hp]
  · intro ho hp
    simp [getOrPromoteToPlasma, ho, hp]

/-- Witness for C7: on `storeA` the present, non-error object `vEx` is
returned unchanged. -/
theorem claim_C7_witness : getOrPromoteToPlasma storeA aEx = some (some vEx, storeA) :=
  (claim_C7 storeA aEx).1 vEx rfl (by decide)

/-- C9: the initial scan of `Get` stops as soon as the found count reaches
`num_objects`: every position after that point stays absent (a `replicate`
of `none`) even when its id is present, later ids are neither counted nor
recorded for removal nor collected into the remaining set, and the call
returns `OK` immediately, so no sync waiter is ever registered for them. -/
theorem claim_C9 (s : StoreState) (p q : List ObjectID) (n : Nat) (t : Int) (r : Bool)
    (h : (scanGo s.objects p 0 n r).count = n) :
    scanGo s.objects (p ++ q) 0 n r =
      ⟨(scanGo s.objects p 0 n r).results ++ List.replicate q.length none, n,
        (scanGo s.objects p 0 n r).toRemove, (scanGo s.objects p 0 n r).remaining⟩ ∧
    get s (p ++ q) n t r =
      .returns .OK ((scanGo s.objects p 0 n r).results ++ List.replicate q.length none)
        { s with objects := (scanGo s.objects p 0 n r).toRemove.foldl aerase s.objects } := by
  have h1 := scanGo_append s.objects p q 0 n r
  rw [h] at h1
  rw [scanGo_stop s.objects q r (lt_irrefl n)] at h1
  simp only [List.append_nil] at h1
  refine ⟨h1, ?_⟩
  simp [get, getScanPhase, h1]

/-- Witness for C9: on a store holding both `aEx` and `bEx`, a
`Get([aEx, bEx], 1, -1, false)` fills the first position and leaves the
second absent although `bEx` is present. -/
theorem claim_C9_witness :
    get storeAB [aEx, bEx] 1 (-1) false = .returns .OK [some vEx, none] storeAB :=
  (claim_C9 storeAB [aEx] [bEx] 1 (-1) false rfl).2

/-- C3 counterexample: with `num_objects = 2`, a `Get([aEx, aEx], 2, -1,
true)` on a store containing `aEx` fills *both* occurrences — removal is
deferred until after the scan precisely so duplicates still hit — so the
second occurrence is not reported absent, contradicting the claim for this
call. -/
theorem claim_C3_counterexample :
    alookup storeA.objects aEx = some vEx ∧
    get storeA [aEx, aEx] 2 (-1) true =
      .returns .OK [some vEx, some vEx] { storeA with objects := [] } :=
  ⟨rfl, rfl⟩

/-- C3 amended: for every `Get` with `remove_after_get = true` whose ids
vector contains the same id at two positions (the prefix `p` holds an
earlier occurrence; the second occurrence sits right after `p`) and where
that id is present in `objects` at the start of the call, the second
occurrence's position is reported absent exactly when the found count
reaches `num_objects` before the scan reaches that position: when the
prefix scan has already counted `num_objects`, the call returns `OK`
immediately with `none` at that position; otherwise every returning
outcome of the call reports the stored object there, because the deferred
removal keeps the entry visible to the scan. -/
theorem claim_C3_amended (s : StoreState) (p q : List ObjectID) (id : ObjectID)
    (v : RayObject) (n : Nat) (t : Int)
    (_hmem : id ∈ p) (hv : alookup s.objects id = some v) :
    (scanGo s.objects p 0 n true).count ≤ n ∧
    ((scanGo s.objects p 0 n true).count = n →
      get s (p ++ id :: q) n t true =
        .returns .OK
          ((scanGo s.objects p 0 n true).results ++ List.replicate (q.length + 1) none)
          { s with objects :=
              (scanGo s.objects p 0 n true).toRemove.foldl aerase s.objects } ∧
      ((scanGo s.objects p 0 n true).results ++
          List.replicate (q.length + 1) none).get? p.length = some none) ∧
    ((scanGo s.objects p 0 n true).count < n →
      ∀ st res s2, get s (p ++ id :: q) n t true = .returns st res s2 →
        res.get? p.length = some (some v)) := by
  have hlen : (scanGo s.objects p 0 n true).results.length = p.length :=
    scanGo_results_length s.objects p 0 n true
  refine ⟨scanGo_count_le s.objects p true (Nat.zero_le n), ?_, ?_⟩
  · intro hstop
    have h1 := scanGo_append s.objects p (id :: q) 0 n true
    rw [hstop] at h1
    rw [scanGo_stop s.objects (id :: q) true (lt_irrefl n)] at h1
    simp only [List.append_nil, List.length_cons] at h1
    constructor
    · simp [get, getScanPhase, h1]
    · rw [List.get?_append_right (le_of_eq hlen)]
      simp [hlen, List.replicate_succ]
  · intro hlt st res s2 hget
    have hQ : scanGo s.objects (id :: q) (scanGo s.objects p 0 n true).count n true =
        ⟨some v ::
            (scanGo s.objects q ((scanGo s.objects p 0 n true).count + 1) n true).results,
          (scanGo s.objects q ((scanGo s.objects p 0 n true).count + 1) n true).count,
          [id] ++
            (scanGo s.objects q ((scanGo s.objects p 0 n true).count + 1) n true).toRemove,
          (scanGo s.objects q ((scanGo s.objects p 0 n true).count + 1) n true).remaining⟩ := by
      simp only [scanGo, hlt, if_true, hv]
    have h1 := scanGo_append s.objects p (id :: q) 0 n true
    rw [hQ] at h1
    have hres : (scanGo s.objects (p ++ id :: q) 0 n true).results.get? p.length
        = some (some v) := by
      rw [h1]
      dsimp only
      rw [List.get?_append_right (le_of_eq hlen)]
      simp [hlen]
    have hflen : (scanGo s.objects (p ++ id :: q) 0 n true).results.length =
        (p ++ id :: q).length :=
      scanGo_results_length s.objects (p ++ id :: q) 0 n true
    unfold get at hget
    cases hgp : getScanPhase s (p ++ id :: q) n true with
    | none =>
      rw [hgp] at hget
      cases hget
    | some r0 =>
      obtain ⟨sc0, s10, orid⟩ := r0
      have hsc0 : sc0 = scanGo s.objects (p ++ id :: q) 0 n true := getScanPhase_fst hgp
      cases orid with
      | none =>
        rw [hgp] at hget
        dsimp only at hget
        injection hget with hst hres2 hs2
        rw [← hres2, hsc0]
        exact hres
      | some rid =>
        rw [hgp] at hget
        dsimp only at hget
        by_cases ht1 : t < -1
        · rw [if_pos ht1] at hget
          cases hget
        rw [if_neg ht1] at hget
        by_cases ht2 : t = -1
        · rw [if_pos ht2] at hget
          cases hget
        rw [if_neg ht2] at hget
        cases hrq : alookup s10.requests rid with
        | none =>
          rw [hrq] at hget
          cases hget
        | some req =>
          rw [hrq] at hget
          injection hget with hst hres2 hs2
          rw [← hres2]
          apply populateResults_get_some
          · rw [hsc0]
            exact hres
          · rw [hsc0]
            exact le_of_eq hflen

/-- Witness for C3 amended: `Get([aEx, aEx], 2, -1, true)` on `storeA`
reaches the second occurrence, which is therefore filled rather than
absent. -/
theorem claim_C3_witness :
    ([some vEx, some vEx] : List (Option RayObject)).get? 1 = some (some vEx) :=
  (claim_C3_amended storeA [aEx] [] aEx vEx 2 (-1) (by decide) rfl).2.2 (by decide)
    .OK [some vEx, some vEx] { storeA with objects := [] } (by rfl)

/-- C8 counterexample: a task whose two argument slots both reference
`aEx` as their first id is inlined without any abort — both slots receive
the value — so the `RAY_CHECK(found)` does not fire when the id is found in
more than one slot, contradicting that half of the claim. -/
theorem claim_C8_counterexample :
    ((⟨7, 1, [⟨[aEx], none, none⟩, ⟨[aEx], none, none⟩]⟩ : TaskSpec).args.map
        (fun a => a.objectIds.head?) = [some aEx, some aEx]) ∧
    doInlineObjectValue aEx vEx ⟨7, 1, [⟨[aEx], none, none⟩, ⟨[aEx], none, none⟩]⟩ =
      some ⟨7, 1, [⟨[], some [1], none⟩, ⟨[], some [1], none⟩]⟩ :=
  ⟨rfl, rfl⟩

/-- C8 amended: `DoInlineObjectValue` aborts (the `RAY_CHECK(found)`
failure) exactly when the id appears as the first referenced id of *no*
argument slot; when it appears in one or more slots, every matching slot is
rewritten and no abort occurs. -/
theorem claim_C8_amended (objId : ObjectID) (value : RayObject) (task : TaskSpec) :
    doInlineObjectValue objId value task = none ↔
      ∀ a ∈ task.args, a.objectIds.head? ≠ some objId := by
  have hpt : ∀ a : Arg, referencesFirst objId a = true ↔ a.objectIds.head? = some objId := by
    intro a
    cases hl : a.objectIds with
    | nil => simp [referencesFirst, hl]
    | cons x xs => simp [referencesFirst, hl]
  unfold doInlineObjectValue
  split
  next hfound =>
    rw [List.any_eq_true] at hfound
    obtain ⟨a, ha, hpa⟩ := hfound
    constructor
    · intro hcontr
      cases hcontr
    · intro hall
      exact absurd ((hpt a).1 hpa) (hall a ha)
  next hfound =>
    constructor
    · intro _ a ha hhd
      exact hfound (List.any_eq_true.2 ⟨a, ha, (hpt a).2 hhd⟩)
    · intro _
      rfl


/-- C1 amended: a successful `Put(id, v)` followed by `Get([id], 1, -1,
false)` returns `OK` with the one-entry results vector `[v]`, provided no
`GetRequest` with `remove_after_get` was registered under `id` at the time
of the `Put` (such a waiter consumes the `Put` and suppresses the
`objects_` insertion). -/
theorem claim_C1_amended (s : StoreState) (id : ObjectID) (v : RayObject)
    (s2 : StoreState) (effs : List Effect)
    (hput : put s id v = some (.OK, s2, effs))
    (hnorem : ∀ rid req, rid ∈ (alookup s.syncWaiters id).getD [] →
        alookup s.requests rid = some req → req.removeAfterGet = false) :
    get s2 [id] 1 (-1) false = .returns .OK [some v] s2 := by
  unfold put at hput
  by_cases hd : id.IsDirectCallType = false
  · rw [if_pos hd] at hput
    cases hput
  rw [if_neg hd] at hput
  cases hobj : alookup s.objects id with
  | some o =>
    rw [hobj] at hput
    simp at hput
  | none =>
    rw [hobj] at hput
    by_cases hpl : id ∈ s.promoted ∧ s.hasPlasma = false
    · rw [if_pos hpl] at hput
      cases hput
    rw [if_neg hpl] at hput
    have hsa : (putSetFold id ⟨v.data, v.metadata⟩
        ((alookup s.syncWaiters id).getD []) s.requests true).2 = true :=
      putSetFold_snd _ _ _ _ _ hnorem
    simp only [hsa, if_true, Option.some.injEq, Prod.mk.injEq, true_and] at hput
    obtain ⟨hX, hE⟩ := hput
    rw [← hX]
    have hlook : alookup (emplace s.objects id (⟨v.data, v.metadata⟩ : RayObject)) id
        = some v :=
      alookup_emplace_self s.objects id ⟨v.data, v.metadata⟩ hobj
    have hscan : scanGo (emplace s.objects id (⟨v.data, v.metadata⟩ : RayObject))
        [id] 0 1 false = ⟨[some v], 1, [], []⟩ := by
      simp [scanGo, hlook]
    simp [get, getScanPhase, hscan]

/-- Witness for C1 amended: putting `vEx` into a fresh store and getting it
back. -/
theorem claim_C1_witness :
    get storeA [aEx] 1 (-1) false = .returns .OK [some vEx] storeA :=
  claim_C1_amended (StoreState.init true) aEx vEx storeA [] (by rfl)
    (by intro rid req hmem hl; simp [StoreState.init, alookup] at hmem)

/-- C1 counterexample: in the reachable store `storeWaiting` — where a
`Get([aEx], 1, t, remove_after_get = true)` from another thread is
registered and `aEx` is absent — a successful `Put(aEx, vEx)` is consumed
by that waiter without inserting the entry, and the subsequent
`Get([aEx], 1, -1, false)` blocks instead of returning `[vEx]`, refuting
the claim as universally stated over stores not containing the id. -/
theorem claim_C1_counterexample :
    aEx.IsDirectCallType = true ∧
    alookup storeWaiting.objects aEx = none ∧
    StoreReachable storeWaiting ∧
    put storeWaiting aEx vEx = some (.OK, storeSatisfied, []) ∧
    get storeSatisfied [aEx] 1 (-1) false = .blocks := by
  refine ⟨rfl, rfl, ?_, by rfl, by rfl⟩
  exact StoreReachable.step (StoreReachable.init true)
    (show storeStep (StoreState.init true) (.getStartE [aEx] 1 true) = some storeWaiting
      from by rfl)

/-- C2 amended: in every reachable store state, every `GetRequest`
registered in `sync_waiters` that is not yet ready and requires at least
one object satisfies `objects_.size() < num_objects_`.  (The unqualified
claim fails: a `Put` delivering the last object makes the sizes equal while
the request stays registered, and a `Get` whose duplicate missing ids drive
`required_objects` to zero registers a request that can exceed its bound.)
-/
theorem claim_C2_amended (s : StoreState) (hs : StoreReachable s) (id : ObjectID)
    (rid : Nat) (req : GetRequest)
    (_hreg : rid ∈ (alookup s.syncWaiters id).getD [])
    (hreq : alookup s.requests rid = some req)
    (hnr : req.isReady = false) (hpos : 0 < req.numObjects) :
    req.objects.length < req.numObjects :=
  storeReachable_poolBound s hs rid req hreq hnr hpos

/-- Witness for C2 amended: the freshly registered request of
`storeWaiting` holds no objects and requires one. -/
theorem claim_C2_witness :
    (⟨[aEx], [], 1, true, false⟩ : GetRequest).objects.length <
      (⟨[aEx], [], 1, true, false⟩ : GetRequest).numObjects :=
  claim_C2_amended storeWaiting
    (StoreReachable.step (StoreReachable.init true)
      (show storeStep (StoreState.init true) (.getStartE [aEx] 1 true) = some storeWaiting
        from by rfl))
    aEx 0 ⟨[aEx], [], 1, true, false⟩ (by decide) rfl rfl (by decide)

/-- C2 counterexample: after the reachable `Put` that delivers the last
object of the registered request, the request is still registered in
`sync_waiters` with `objects_.size() = num_objects_ = 1`, so the strict
inequality of the claim fails immediately after that `Put`. -/
theorem claim_C2_counterexample :
    StoreReachable storeSatisfied ∧
    (0 : Nat) ∈ (alookup storeSatisfied.syncWaiters aEx).getD [] ∧
    alookup storeSatisfied.requests 0 = some ⟨[aEx], [(aEx, vEx)], 1, true, true⟩ ∧
    ¬ ((⟨[aEx], [(aEx, vEx)], 1, true, true⟩ : GetRequest).objects.length <
        (⟨[aEx], [(aEx, vEx)], 1, true, true⟩ : GetRequest).numObjects) := by
  refine ⟨?_, by decide, by rfl, by decide⟩
  exact StoreReachable.step
    (StoreReachable.step (StoreReachable.init true)
      (show storeStep (StoreState.init true) (.getStartE [aEx] 1 true) = some storeWaiting
        from by rfl))
    (show storeStep storeWaiting (.putE aEx vEx) = some storeSatisfied from by rfl)

/-- C6: in every reachable submitter state there is at most one
outstanding (issued but not yet granted) worker-lease request — the
issued-minus-granted counter never exceeds one, because
`RequestNewWorkerIfNeeded` issues only when `worker_request_pending_` is
false and immediately sets it, and only `HandleWorkerLeaseGranted` clears
it. -/
theorem claim_C6 (st : DTSState × StoreState) (h : DtsReachable st) :
    st.1.outstanding ≤ 1 := by
  rw [dtsReachable_inv st h]
  by_cases hp : st.1.pending = true <;> simp [hp]

/-- Witness for C6 at the initial submitter state. -/
theorem claim_C6_witness : DTSState.init.outstanding ≤ 1 :=
  claim_C6 (DTSState.init, StoreState.init true) (DtsReachable.init true)

/-- C5: when a `PushNormalTask` RPC completes with a non-OK status, the
completion handler first runs `OnWorkerIdle` with `was_error = true` — the
trace starts with `ReturnWorker(addr.port)` and contains no task dispatch —
and then puts a `WORKER_DIED` failure object into the store for each of the
task's `num_returns` return ids. -/
theorem claim_C5 (dts : DTSState) (ims : StoreState) (addr : WorkerAddress)
    (taskId numReturns : Nat) (syncOk : Bool) (reply : List (ObjectID × RayObject))
    (d2 : DTSState) (i2 : StoreState) (tr : List Effect)
    (h : pushCompletion taskId numReturns addr false syncOk reply dts ims =
      some (d2, i2, tr)) :
    tr.head? = some (Effect.returnWorker addr.2) ∧
    (∀ a t, Effect.pushTask a t ∉ tr) ∧
    (∀ i, i < numReturns →
      Effect.putCall (returnObjectId taskId i) workerDiedObject ∈ tr) := by
  obtain ⟨d1, e2, hoi, hnp, hnr⟩ := onWorkerIdle_error addr syncOk dts ims
  unfold pushCompletion at h
  simp only [Bool.not_false] at h
  rw [hoi] at h
  dsimp only [Option.bind] at h
  unfold treatTaskAsFailed at h
  cases hps : putSeq ims ((returnObjectIds taskId numReturns).map
      (fun id =>
        (id, ({ data := none, metadata := some (errorMetadata .WORKER_DIED) } : RayObject)))) with
  | none =>
    rw [hps] at h
    cases h
  | some r1 =>
    obtain ⟨s20, e3⟩ := r1
    rw [hps] at h
    rw [Option.map_some'] at h
    have htr : tr = (Effect.returnWorker addr.2 :: e2) ++ e3 :=
      (congrArg (fun p => p.2.2) (Option.some.inj h)).symm
    subst htr
    refine ⟨rfl, ?_, ?_⟩
    · intro a t hmem
      rcases List.mem_append.1 hmem with h1 | h1
      · rcases List.mem_cons.1 h1 with heq | h1t
        · cases heq
        · exact hnp a t h1t
      · rcases putSeq_effects_shape hps _ h1 with ⟨_, _, heq⟩ | ⟨_, _, heq⟩ | ⟨_, _, heq⟩ <;>
          cases heq
    · intro i hi
      have hpr : (returnObjectId taskId i,
          ({ data := none, metadata := some (errorMetadata .WORKER_DIED) } : RayObject)) ∈
          (returnObjectIds taskId numReturns).map
            (fun id =>
              (id, ({ data := none, metadata := some (errorMetadata .WORKER_DIED) } : RayObject))) :=
        List.mem_map_of_mem _ (returnObjectId_mem hi)
      exact List.mem_append_right _ (putSeq_putCall_mem hps _ hpr)

/-- Witness for C5: a concrete failed completion for a task with two
returns; the instantiated theorem yields the first failure-put call record.
-/
theorem claim_C5_witness :
    Effect.putCall (returnObjectId 3 0) workerDiedObject ∈
      [Effect.returnWorker 5, Effect.putCall (returnObjectId 3 0) workerDiedObject,
        Effect.putCall (returnObjectId 3 1) workerDiedObject] :=
  (claim_C5 DTSState.init (StoreState.init true) (0, 5) 3 2 true []
      DTSState.init
      { objects := [(returnObjectId 3 1, workerDiedObject),
                    (returnObjectId 3 0, workerDiedObject)],
        asyncWaiters := [], syncWaiters := [], requests := [], promoted := [],
        hasPlasma := true, nextReq := 0 }
      [Effect.returnWorker 5, Effect.putCall (returnObjectId 3 0) workerDiedObject,
        Effect.putCall (returnObjectId 3 1) workerDiedObject]
      (by rfl)).2.2 0 (by decide)

/-- C10: when the synchronous `stub.PushNormalTask` invocation itself
fails, the submitter writes a `WORKER_DIED` failure object for each return
id but does not call `OnWorkerIdle` on that path: the trace contains no
`ReturnWorker` and no task dispatch beyond the failed submission itself. -/
theorem claim_C10 (addr : WorkerAddress) (t : TaskSpec) (ims : StoreState)
    (i2 : StoreState) (tr : List Effect)
    (h : pushNormalTask addr t false ims = some (i2, tr)) :
    (∀ p, Effect.returnWorker p ∉ tr) ∧
    tr.head? = some (Effect.pushTask addr t.taskId) ∧
    (∀ a tid, Effect.pushTask a tid ∈ tr → a = addr ∧ tid = t.taskId) ∧
    (∀ i, i < t.numReturns →
      Effect.putCall (returnObjectId t.taskId i) workerDiedObject ∈ tr) := by
  unfold pushNormalTask at h
  dsimp only at h
  unfold treatTaskAsFailed at h
  cases hps : putSeq ims ((returnObjectIds t.taskId t.numReturns).map
      (fun id =>
        (id, ({ data := none, metadata := some (errorMetadata .WORKER_DIED) } : RayObject)))) with
  | none =>
    rw [hps] at h
    cases h
  | some r1 =>
    obtain ⟨s20, e3⟩ := r1
    rw [hps] at h
    rw [Option.map_some'] at h
    have htr : tr = [Effect.pushTask addr t.taskId] ++ e3 :=
      (congrArg (fun p => p.2) (Option.some.inj h)).symm
    subst htr
    refine ⟨?_, rfl, ?_, ?_⟩
    · intro p hmem
      rcases List.mem_cons.1 hmem with heq | h1
      · cases heq
      · rcases putSeq_effects_shape hps _ h1 with ⟨_, _, heq⟩ | ⟨_, _, heq⟩ | ⟨_, _, heq⟩ <;>
          cases heq
    · intro a tid hmem
      rcases List.mem_cons.1 hmem with heq | h1
      · injection heq with h4 h5
        exact ⟨h4, h5⟩
      · exfalso
        rcases putSeq_effects_shape hps _ h1 with ⟨_, _, heq⟩ | ⟨_, _, heq⟩ | ⟨_, _, heq⟩ <;>
          cases heq
    · intro i hi
      have hpr : (returnObjectId t.taskId i,
          ({ data := none, metadata := some (errorMetadata .WORKER_DIED) } : RayObject)) ∈
          (returnObjectIds t.taskId t.numReturns).map
            (fun id =>
              (id, ({ data := none, metadata := some (errorMetadata .WORKER_DIED) } : RayObject))) :=
        List.mem_map_of_mem _ (returnObjectId_mem hi)
      exact List.mem_cons_of_mem _ (putSeq_putCall_mem hps _ hpr)

/-- Witness for C10: a concrete synchronously-failed push for a task with
two returns; the instantiated theorem yields the first failure-put call
record. -/
theorem claim_C10_witness :
    Effect.putCall (returnObjectId 3 0) workerDiedObject ∈
      [Effect.pushTask (0, 5) 3, Effect.putCall (returnObjectId 3 0) workerDiedObject,
        Effect.putCall (returnObjectId 3 1) workerDiedObject] :=
  (claim_C10 (0, 5) ⟨3, 2, []⟩ (StoreState.init true)
      { objects := [(returnObjectId 3 1, workerDiedObject),
                    (returnObjectId 3 0, workerDiedObject)],
        asyncWaiters := [], syncWaiters := [], requests := [], promoted := [],
        hasPlasma := true, nextReq := 0 }
      [Effect.pushTask (0, 5) 3, Effect.putCall (returnObjectId 3 0) workerDiedObject,
        Effect.putCall (returnObjectId 3 1) workerDiedObject]
      (by rfl)).2.2.2 0 (by decide)

end RayCore
